import Mathlib

/-!
Verification of the Token Discovery & Alert Lifecycle Engine of the
telegram-memecoin-bot repository (src/main.py), as a shallow embedding.

Conventions of the embedding:
* Python floats coming from the market-data JSON are modelled as `ℚ`
  (the program only reads, compares and subtracts them); the one value
  the source represents as `float("inf")` (an unknown pair age) is
  modelled as the `none` arm of an `Option ℚ`.
* Python dicts keyed by strings are modelled as functions
  `String → Option _`.
* Network and messaging I/O is the out-of-scope boundary: an HTTP call
  is an oracle `String → HttpResp` passed in as an argument, and the
  outcome of one Telegram delivery is a `SendOutcome` value.  Everything
  the engine computes from those responses is translated from the source.
-/

namespace MemeBot

/-! ## First-seen store (src/main.py lines 744-812)

`FIRST_SEEN` maps a token address to the record written by
`decorate_with_first_seen`: the locked baseline `first`, `first_price`,
the establishment timestamp `ts`, and the twitter backfill fields. -/

/-- One record of the `FIRST_SEEN` store (the dict built at
src/main.py lines 770-776). -/
structure FSRec where
  first : ℚ
  first_price : ℚ
  ts : ℤ
  tw_handle : Option String
  tw_url : Option String
deriving DecidableEq, Repr

/-- The `FIRST_SEEN` dict: token address to record. -/
def FirstSeen : Type := String → Option FSRec

/-- Point update of the store (Python `FIRST_SEEN[tok] = rec` /
in-place mutation of the dict held at `tok`). -/
def updateFS (fs : FirstSeen) (tok : String) (r0 : FSRec) : FirstSeen :=
  fun t => if t = tok then some r0 else fs t

/-- The fields of one pair row that `decorate_with_first_seen` reads
(`m.get("token")`, `m.get("mcap_usd")`, `m.get("price_usd")`,
`m.get("tw_handle")`, `m.get("tw_url")`). -/
structure PairIn where
  token : String
  mcap_usd : ℚ
  price_usd : ℚ
  tw_handle : Option String
  tw_url : Option String
deriving DecidableEq, Repr

/-- The two fields `decorate_with_first_seen` writes back into the row:
`m["first_mcap_usd"]` and `m["is_first_time"]`. -/
structure Decorated where
  first_mcap_usd : ℚ
  is_first_time : Bool
deriving DecidableEq, Repr

/-- Python truthiness of an optional string (`None` and `""` are falsy). -/
def optStrTruthy : Option String → Bool
  | none => false
  | some s => !(s == "")

/-- `decorate_with_first_seen` for a single row (src/main.py lines
757-810).  New token: store the current mcap as baseline and return it
with `is_first_time = True`.  Existing token: keep a positive baseline
untouched; a baseline that is not positive is overwritten with the
current mcap (line 796); missing twitter fields are backfilled; the row
receives the `existing_baseline` read *before* the zero backfill
(line 808) and `is_first_time = False`. -/
def decorateOne (fs : FirstSeen) (nowTs : ℤ) (m : PairIn) : FirstSeen × Decorated :=
  let tok := m.token
  match fs tok with
  | none =>
      let curMcap := m.mcap_usd
      let curPrice := m.price_usd
      (updateFS fs tok ⟨curMcap, curPrice, nowTs, m.tw_handle, m.tw_url⟩,
       ⟨curMcap, true⟩)
  | some r0 =>
      let curMcap := m.mcap_usd
      let existingBaseline := r0.first
      let r1 := if 0 < existingBaseline then r0 else { r0 with first := curMcap }
      let r2 := if !(optStrTruthy r1.tw_handle) && optStrTruthy m.tw_handle then
                  { r1 with tw_handle := m.tw_handle } else r1
      let r3 := if !(optStrTruthy r2.tw_url) && optStrTruthy m.tw_url then
                  { r2 with tw_url := m.tw_url } else r2
      (updateFS fs tok r3, ⟨existingBaseline, false⟩)

/-- A sequence of decorations: each element carries the `now_ts` of its
cycle and the row decorated in that cycle. -/
def decorateSeq (fs : FirstSeen) : List (ℤ × PairIn) → FirstSeen × List Decorated
  | [] => (fs, [])
  | (now, m) :: rest =>
      let p1 := decorateOne fs now m
      let p2 := decorateSeq p1.1 rest
      (p2.1, p1.2 :: p2.2)

/-- `decorate_with_first_seen` itself (src/main.py lines 748-812): one
call decorates a whole list of rows at a single `now_ts`.  It is the
special case of `decorateSeq` in which every element carries the same
timestamp. -/
def decorate_with_first_seen (fs : FirstSeen) (nowTs : ℤ) (pairs : List PairIn) :
    FirstSeen × List Decorated :=
  decorateSeq fs (pairs.map fun m => (nowTs, m))

/-- The baseline write of `send_new_token` (src/main.py lines
1199-1212): read `cur_mcap` from the row and the stored baseline
(`FIRST_SEEN.get(token, {}).get("first", 0)`); when they differ by more
than 1, overwrite the stored baseline with `cur_mcap`.  (When the token
has no record at all the source would raise a `KeyError` on line 1210;
`send_new_token` is only reached after decoration, so the record
exists.) -/
def send_new_token_baseline_fix (fs : FirstSeen) (tok : String) (curMcap : ℚ) : FirstSeen :=
  let stored : ℚ := ((fs tok).map FSRec.first).getD 0
  if 1 < |stored - curMcap| then
    match fs tok with
    | some r0 => updateFS fs tok { r0 with first := curMcap }
    | none => fs
  else fs

/-! ### Helper lemmas about decoration -/

theorem updateFS_same (fs : FirstSeen) (tok : String) (r0 : FSRec) :
    updateFS fs tok r0 tok = some r0 := by
  simp [updateFS]

theorem decorateSeq_cons (fs : FirstSeen) (now : ℤ) (m : PairIn) (rest : List (ℤ × PairIn)) :
    decorateSeq fs ((now, m) :: rest) =
      ((decorateSeq (decorateOne fs now m).1 rest).1,
       (decorateOne fs now m).2 :: (decorateSeq (decorateOne fs now m).1 rest).2) := rfl

/-- One decoration of a token whose stored baseline is positive keeps
the baseline and returns it with `is_first_time = false`. -/
theorem decorateOne_pos_step (fs : FirstSeen) (tok : String) (r0 : FSRec)
    (hfs : fs tok = some r0) (hpos : 0 < r0.first)
    (now : ℤ) (m : PairIn) (hm : m.token = tok) :
    ∃ r', (decorateOne fs now m).1 tok = some r' ∧ r'.first = r0.first ∧
      (decorateOne fs now m).2 = ⟨r0.first, false⟩ := by
  subst hm
  simp only [decorateOne, hfs, if_pos hpos]
  refine ⟨_, updateFS_same _ _ _, ?_, trivial⟩
  split <;> split <;> rfl

/-- A sequence of decorations of a token whose stored baseline is
positive never changes the baseline, and every decoration of that token
in the sequence returns the stored baseline with
`is_first_time = false`. -/
theorem decorateSeq_preserves_pos (l : List (ℤ × PairIn)) :
    ∀ (fs : FirstSeen) (tok : String) (r0 : FSRec),
    fs tok = some r0 → 0 < r0.first → (∀ x ∈ l, (x.2).token = tok) →
    (∃ r', (decorateSeq fs l).1 tok = some r' ∧ r'.first = r0.first) ∧
      ∀ d ∈ (decorateSeq fs l).2, d.first_mcap_usd = r0.first ∧ d.is_first_time = false := by
  induction l with
  | nil =>
      intro fs tok r0 hfs _ _
      constructor
      · exact ⟨r0, hfs, rfl⟩
      · intro d hd
        simp [decorateSeq] at hd
  | cons x rest ih =>
      obtain ⟨now, m⟩ := x
      intro fs tok r0 hfs hpos hall
      obtain ⟨r', hr', hfirst, hdec⟩ :=
        decorateOne_pos_step fs tok r0 hfs hpos now m (hall (now, m) (List.mem_cons_self _ _))
      have hall' : ∀ y ∈ rest, (y.2).token = tok := fun y hy => hall y (List.mem_cons_of_mem _ hy)
      have hpos' : 0 < r'.first := hfirst ▸ hpos
      obtain ⟨⟨r'', hr'', hfirst''⟩, hout⟩ :=
        ih ((decorateOne fs now m).1) tok r' hr' hpos' hall'
      rw [decorateSeq_cons]
      refine ⟨⟨r'', hr'', hfirst''.trans hfirst⟩, ?_⟩
      intro d hd
      rcases List.mem_cons.mp hd with hd | hd
      · subst hd
        rw [hdec]
        exact ⟨rfl, rfl⟩
      · obtain ⟨h1, h2⟩ := hout d hd
        exact ⟨h1.trans hfirst, h2⟩

/-- Decorating a token that has no record yet creates the record from
the current row and returns `is_first_time = true`. -/
theorem decorateOne_new (fs : FirstSeen) (tok : String)
    (hfs : fs tok = none) (now : ℤ) (m : PairIn) (hm : m.token = tok) :
    (decorateOne fs now m).1 tok = some ⟨m.mcap_usd, m.price_usd, now, m.tw_handle, m.tw_url⟩ ∧
      (decorateOne fs now m).2 = ⟨m.mcap_usd, true⟩ := by
  subst hm
  simp only [decorateOne, hfs]
  exact ⟨updateFS_same _ _ _, trivial⟩

/-- Decorating a token whose stored baseline is not positive overwrites
the baseline with the current mcap (the zero backfill of line 796), while
the row still receives the old baseline value. -/
theorem decorateOne_backfill (fs : FirstSeen) (tok : String) (r0 : FSRec)
    (hfs : fs tok = some r0) (hz : ¬ 0 < r0.first)
    (now : ℤ) (m : PairIn) (hm : m.token = tok) :
    ∃ r', (decorateOne fs now m).1 tok = some r' ∧ r'.first = m.mcap_usd ∧
      (decorateOne fs now m).2 = ⟨r0.first, false⟩ := by
  subst hm
  simp only [decorateOne, hfs, if_neg hz]
  refine ⟨_, updateFS_same _ _ _, ?_, trivial⟩
  split <;> split <;> rfl

/-! ### Claims C1, C2, C3 -/

/-- C1 — Baseline immutability: once the stored baseline `first` of a
token is a non-zero value (market caps read from the feed are
non-negative, so non-zero means positive, matching the source's guard
`existing_baseline > 0`), decorating that token with any sequence of
subsequent market-cap values never changes the stored baseline, and each
such decoration returns the existing baseline as `first_mcap_usd` with
`is_first_time = false`. -/
theorem decorate_baseline_immutable (fs : FirstSeen) (tok : String) (r0 : FSRec)
    (hfs : fs tok = some r0) (hne : r0.first ≠ 0) (hnn : 0 ≤ r0.first)
    (l : List (ℤ × PairIn)) (hall : ∀ x ∈ l, (x.2).token = tok) :
    (∃ r', (decorateSeq fs l).1 tok = some r' ∧ r'.first = r0.first) ∧
      ∀ d ∈ (decorateSeq fs l).2, d.first_mcap_usd = r0.first ∧ d.is_first_time = false :=
  decorateSeq_preserves_pos l fs tok r0 hfs (lt_of_le_of_ne hnn (Ne.symm hne)) hall

/-- Witness for C1 at a concrete store and a concrete sequence of three
later observations (lower, zero, higher). -/
theorem decorate_baseline_immutable_witness :
    (∃ r', (decorateSeq
        (fun t => if t = "mintA" then some (⟨100000, 1, 5, none, none⟩ : FSRec) else none)
        [(10, ⟨"mintA", 50000, 2, none, none⟩), (20, ⟨"mintA", 0, 0, none, none⟩),
         (30, ⟨"mintA", 200000, 3, none, none⟩)]).1 "mintA" = some r' ∧ r'.first = 100000) ∧
      ∀ d ∈ (decorateSeq
        (fun t => if t = "mintA" then some (⟨100000, 1, 5, none, none⟩ : FSRec) else none)
        [(10, ⟨"mintA", 50000, 2, none, none⟩), (20, ⟨"mintA", 0, 0, none, none⟩),
         (30, ⟨"mintA", 200000, 3, none, none⟩)]).2,
        d.first_mcap_usd = 100000 ∧ d.is_first_time = false :=
  decorate_baseline_immutable _ "mintA" ⟨100000, 1, 5, none, none⟩ rfl
    (by norm_num) (by norm_num) _
    (by intro x hx
        simp only [List.mem_cons, List.not_mem_nil, or_false] at hx
        rcases hx with h | h | h <;> subst h <;> rfl)

/-- C2 — refuted: `send_new_token` (src/main.py lines 1203-1212)
overwrites an already-established non-zero stored baseline whenever the
current row's mcap differs from it by more than 1.  Concretely, a token
whose stored baseline is 100000, reaching `send_new_token` with a
current mcap of 150000, has its stored baseline rewritten to 150000 —
so the baseline is not written exactly once. -/
theorem send_new_token_overwrites_baseline :
    ((fun t => if t = "mintA" then some (⟨100000, 1, 1000, none, none⟩ : FSRec) else none)
        "mintA").map FSRec.first = some 100000 ∧
    ((send_new_token_baseline_fix
        (fun t => if t = "mintA" then some (⟨100000, 1, 1000, none, none⟩ : FSRec) else none)
        "mintA" 150000) "mintA").map FSRec.first = some 150000 := by
  have habs : (1 : ℚ) < |(100000 : ℚ) - 150000| := by
    rw [show (100000 : ℚ) - 150000 = -50000 by norm_num, abs_neg,
      abs_of_pos (show (0 : ℚ) < 50000 by norm_num)]
    norm_num
  constructor
  · rfl
  · simp [send_new_token_baseline_fix, updateFS, habs]

/-- C2 amended: `decorate_with_first_seen` never overwrites a positive
stored baseline, but `send_new_token` overwrites the stored baseline with
the current mcap exactly when the two differ by more than 1 (its
"mismatch fix", lines 1206-1212); the baseline is therefore not
write-once. -/
theorem baseline_write_paths_characterized (fs : FirstSeen) (tok : String) (r0 : FSRec)
    (cur : ℚ) (hfs : fs tok = some r0) :
    (((send_new_token_baseline_fix fs tok cur) tok).map FSRec.first
        = some (if 1 < |r0.first - cur| then cur else r0.first)) ∧
    (0 < r0.first → ∀ (now : ℤ) (m : PairIn), m.token = tok →
      ∃ r', (decorateOne fs now m).1 tok = some r' ∧ r'.first = r0.first) := by
  constructor
  · simp only [send_new_token_baseline_fix, hfs, Option.map_some', Option.getD_some]
    split
    · rw [updateFS_same]
      rfl
    · rw [hfs]
      rfl
  · intro hpos now m hm
    obtain ⟨r', h1, h2, _⟩ := decorateOne_pos_step fs tok r0 hfs hpos now m hm
    exact ⟨r', h1, h2⟩

/-- Witness for the amended C2 at a concrete store: with a stored
baseline of 100000 and a current mcap of 150000 the fix path rewrites
the baseline. -/
theorem baseline_write_paths_characterized_witness :
    (((send_new_token_baseline_fix
        (fun t => if t = "mintB" then some (⟨100000, 1, 1000, none, none⟩ : FSRec) else none)
        "mintB" 150000) "mintB").map FSRec.first
      = some (if 1 < |(100000 : ℚ) - 150000| then (150000 : ℚ) else 100000)) ∧
    (0 < (⟨100000, 1, 1000, none, none⟩ : FSRec).first →
      ∀ (now : ℤ) (m : PairIn), m.token = "mintB" →
      ∃ r', (decorateOne
        (fun t => if t = "mintB" then some (⟨100000, 1, 1000, none, none⟩ : FSRec) else none)
        now m).1 "mintB" = some r' ∧ r'.first = (⟨100000, 1, 1000, none, none⟩ : FSRec).first) :=
  baseline_write_paths_characterized _ "mintB" ⟨100000, 1, 1000, none, none⟩ 150000 rfl

/-- C3 — Zero-baseline backfill, once: a token first decorated with
mcap 0 has baseline 0; a later decoration with mcap 150000 rewrites the
stored baseline to 150000, and any further sequence of decorations of
that token (lower or zero mcaps included) leaves it at 150000. -/
theorem zero_baseline_backfill_once (fs : FirstSeen) (tok : String)
    (now0 now1 : ℤ) (m0 m1 : PairIn)
    (hfs : fs tok = none) (hm0 : m0.token = tok) (h0 : m0.mcap_usd = 0)
    (hm1 : m1.token = tok) (h1 : m1.mcap_usd = 150000)
    (l : List (ℤ × PairIn)) (hall : ∀ x ∈ l, (x.2).token = tok) :
    (∃ r', (decorateOne (decorateOne fs now0 m0).1 now1 m1).1 tok = some r' ∧
        r'.first = 150000) ∧
      ∃ r'', (decorateSeq (decorateOne (decorateOne fs now0 m0).1 now1 m1).1 l).1 tok
          = some r'' ∧ r''.first = 150000 := by
  obtain ⟨hfs1, -⟩ := decorateOne_new fs tok hfs now0 m0 hm0
  rw [h0] at hfs1
  obtain ⟨r', hfs2, hr'first, -⟩ :=
    decorateOne_backfill _ tok _ hfs1 (by norm_num) now1 m1 hm1
  rw [h1] at hr'first
  obtain ⟨⟨r'', hfs3, hr''⟩, -⟩ :=
    decorateSeq_preserves_pos l _ tok r' hfs2 (by rw [hr'first]; norm_num) hall
  exact ⟨⟨r', hfs2, hr'first⟩, ⟨r'', hfs3, hr''.trans hr'first⟩⟩

/-- Witness for C3 at an initially-empty store, with a zero first
observation, a 150000 second observation, and two further observations
(one lower, one zero). -/
theorem zero_baseline_backfill_once_witness :
    (∃ r', (decorateOne (decorateOne (fun _ => none) 1 ⟨"mintC", 0, 0, none, none⟩).1 2
        ⟨"mintC", 150000, 3, none, none⟩).1 "mintC" = some r' ∧ r'.first = 150000) ∧
      ∃ r'', (decorateSeq (decorateOne (decorateOne (fun _ => none) 1
          ⟨"mintC", 0, 0, none, none⟩).1 2 ⟨"mintC", 150000, 3, none, none⟩).1
          [(3, ⟨"mintC", 60000, 1, none, none⟩), (4, ⟨"mintC", 0, 0, none, none⟩)]).1 "mintC"
        = some r'' ∧ r''.first = 150000 :=
  zero_baseline_backfill_once (fun _ => none) "mintC" 1 2
    ⟨"mintC", 0, 0, none, none⟩ ⟨"mintC", 150000, 3, none, none⟩ rfl rfl rfl rfl rfl _
    (by intro x hx
        simp only [List.mem_cons, List.not_mem_nil, or_false] at hx
        rcases hx with h | h <;> subst h <;> rfl)

/-! ## Alert filter (src/main.py lines 96-99, 467-470, 1162-1171) -/

/-- The four env-configured thresholds (defaults 35000 / 70000 / 40000 /
120 at src/main.py lines 96-99). -/
structure FilterCfg where
  MIN_LIQ_USD : ℚ
  MIN_MCAP_USD : ℚ
  MIN_VOL_H24_USD : ℚ
  MAX_AGE_MIN : ℚ
deriving DecidableEq, Repr

/-- The fields of a row that `passes_filters_for_alert` reads.
`age_min = none` models the `float("inf")` that `_pair_age_minutes`
stores when the pair-creation time is unknown. -/
structure AlertRow where
  liquidity_usd : ℚ
  mcap_usd : ℚ
  vol24_usd : ℚ
  age_min : Option ℚ
deriving DecidableEq, Repr

/-- `_pair_age_minutes` (src/main.py lines 467-470): a missing or zero
`pairCreatedAt` yields infinity (`none` here); otherwise the age is
`max 0 ((now_ms - created_ms) / 60000)` minutes. -/
def _pair_age_minutes (nowMs : ℚ) (createdMs : Option ℚ) : Option ℚ :=
  match createdMs with
  | none => none
  | some c => if c = 0 then none else some (max 0 ((nowMs - c) / 60000))

/-- `passes_filters_for_alert` (src/main.py lines 1162-1171): reject
when liquidity, mcap or volume is below its threshold or when the age
exceeds `MAX_AGE_MIN`; an infinite age (`none`) always exceeds the
finite threshold, matching `float("inf") > MAX_AGE_MIN` in Python. -/
def passes_filters_for_alert (cfg : FilterCfg) (m : AlertRow) : Bool :=
  if m.liquidity_usd < cfg.MIN_LIQ_USD then false
  else if m.mcap_usd < cfg.MIN_MCAP_USD then false
  else if m.vol24_usd < cfg.MIN_VOL_H24_USD then false
  else
    match m.age_min with
    | none => false
    | some a => if cfg.MAX_AGE_MIN < a then false else true

/-- C4 — refuted: the source filter has no "skip the check when the
value is unknown" policy.  The claim's own instance — liquidity 40000,
mcap 0, volume 0, age 5 with the thresholds at their configured values
(minLiquidity 35000, minMcap 70000, minVol 40000, maxAge 120) — is
claimed to pass, but `passes_filters_for_alert` rejects it at the
`mcap < MIN_MCAP_USD` comparison. -/
theorem filter_rejects_zero_mcap :
    passes_filters_for_alert ⟨35000, 70000, 40000, 120⟩ ⟨40000, 0, 0, some 5⟩ = false := by
  rfl

/-- C4 amended: the filter accepts exactly when liquidity, mcap and
volume are at or above their thresholds and the age is known and at most
the maximum — zero ("unknown") mcap or volume is rejected whenever its
threshold is positive, and an unknown (infinite) age is always
rejected.  The claim's second instance (mcap 50000 vs minMcap 70000
fails) does hold. -/
theorem passes_filters_iff (cfg : FilterCfg) (m : AlertRow) :
    passes_filters_for_alert cfg m = true ↔
      (cfg.MIN_LIQ_USD ≤ m.liquidity_usd ∧ cfg.MIN_MCAP_USD ≤ m.mcap_usd ∧
        cfg.MIN_VOL_H24_USD ≤ m.vol24_usd ∧
        ∃ a, m.age_min = some a ∧ a ≤ cfg.MAX_AGE_MIN) := by
  unfold passes_filters_for_alert
  rcases m with ⟨liq, mcap, vol, age⟩
  constructor
  · intro h
    by_cases h1 : liq < cfg.MIN_LIQ_USD
    · simp [h1] at h
    by_cases h2 : mcap < cfg.MIN_MCAP_USD
    · simp [h1, h2] at h
    by_cases h3 : vol < cfg.MIN_VOL_H24_USD
    · simp [h1, h2, h3] at h
    refine ⟨le_of_not_lt h1, le_of_not_lt h2, le_of_not_lt h3, ?_⟩
    simp only [h1, h2, h3, if_false] at h
    cases age with
    | none => simp at h
    | some a =>
        by_cases h4 : cfg.MAX_AGE_MIN < a
        · simp [h4] at h
        · exact ⟨a, rfl, le_of_not_lt h4⟩
  · rintro ⟨h1, h2, h3, a, ha, h4⟩
    subst ha
    simp [not_lt_of_le h1, not_lt_of_le h2, not_lt_of_le h3, not_lt_of_le h4]

/-! ## Alert delivery, pinning and subscriber removal
(src/main.py lines 456-459, 1126-1160, 1183-1226, 1322-1373)

`_send_or_photo` talks to the messaging transport; the outcome of one
delivery attempt is the out-of-scope input.  The repository's own
subscriber validation (`_validate_subs`, lines 442-454) shows that an
invalid destination manifests as a `BadRequest` exception, so the
outcomes distinguish `BadRequest` failures from other exceptions. -/

/-- Outcome of one `_send_or_photo` delivery attempt, as decided by the
external messaging transport:
* `photoOk` — some logo candidate was sent as a photo (lines 1130-1139);
* `photoKbReject` — the photo send raised the keyboard-reject
  `BadRequest` and was resent without a keyboard (lines 1140-1144);
* `textOk` — every photo candidate failed and the plain-text send
  succeeded (lines 1148-1151);
* `textKbReject` — the text send raised the keyboard-reject `BadRequest`
  and was resent without a keyboard (lines 1152-1155);
* `textBadRequest` — the text send raised a `BadRequest` that is not a
  keyboard rejection, e.g. "chat not found" for an invalid destination
  (caught at line 1152, nothing done);
* `textError` — the text send raised a non-`BadRequest` exception
  (caught at line 1156). -/
inductive SendOutcome where
  | photoOk (msgId : ℕ)
  | photoKbReject (msgId : ℕ)
  | textOk (msgId : ℕ)
  | textKbReject (msgId : ℕ)
  | textBadRequest
  | textError
deriving DecidableEq, Repr

/-- What one `_send_or_photo` call returns and does: the returned
`msg_id`, whether `pin_chat_message` was attempted, and whether
`_remove_bad_sub` was called on the destination. -/
structure SendResult where
  msgId : Option ℕ
  pinAttempted : Bool
  subRemoved : Bool
deriving DecidableEq, Repr

/-- `_send_or_photo` (src/main.py lines 1126-1160): a pin is attempted
only on the successful-photo path with `pin=True`; the keyboard-reject
photo resend skips the pin; text sends never pin; only a
non-`BadRequest` exception of the text send removes the subscriber. -/
def _send_or_photo (pin : Bool) : SendOutcome → SendResult
  | .photoOk i => ⟨some i, pin, false⟩
  | .photoKbReject i => ⟨some i, false, false⟩
  | .textOk i => ⟨some i, false, false⟩
  | .textKbReject i => ⟨some i, false, false⟩
  | .textBadRequest => ⟨none, false, false⟩
  | .textError => ⟨none, false, true⟩

/-- Python truthiness of the optional message id (`if should_pin and msg_id:`). -/
def optNatTruthy : Option ℕ → Bool
  | none => false
  | some i => !(i == 0)

/-- The pin bookkeeping of `send_new_token` for one (destination, token)
key (src/main.py lines 1183-1226): `should_pin` iff the key has no
`LAST_PINNED` entry; on a truthy returned `msg_id` with `should_pin`,
the entry is recorded.  Returns the new entry and whether a pin was
attempted. -/
def send_new_token_pin_step (lastPinned : Option ℕ) (out : SendOutcome) : Option ℕ × Bool :=
  let shouldPin := lastPinned.isNone
  let r := _send_or_photo shouldPin out
  ((if shouldPin && optNatTruthy r.msgId then r.msgId else lastPinned), r.pinAttempted)

/-- `send_price_update` (src/main.py lines 1322-1373) always calls
`_send_or_photo` with `pin=False` and never touches `LAST_PINNED`. -/
def send_price_update_step (lastPinned : Option ℕ) (out : SendOutcome) : Option ℕ × Bool :=
  (lastPinned, (_send_or_photo false out).pinAttempted)

/-- An alert delivery for a fixed (destination, token) pair: a discovery
alert (`send_new_token`) or a refresh alert (`send_price_update`), each
with the transport's outcome. -/
inductive AlertEvent where
  | discovery (out : SendOutcome)
  | refresh (out : SendOutcome)
deriving DecidableEq, Repr

/-- One step of the per-key pin state machine. -/
def alertStep (lastPinned : Option ℕ) : AlertEvent → Option ℕ × Bool
  | .discovery o => send_new_token_pin_step lastPinned o
  | .refresh o => send_price_update_step lastPinned o

/-- Number of pin actions over a sequence of alert deliveries for one
(destination, token) key. -/
def pinCount (s : Option ℕ) : List AlertEvent → ℕ
  | [] => 0
  | e :: rest =>
      (if (alertStep s e).2 then 1 else 0) + pinCount (alertStep s e).1 rest

/-- Telegram message ids are positive; an outcome carrying a message id
is well formed when the id is non-zero. -/
def outcomeWf : SendOutcome → Prop
  | .photoOk i => 0 < i
  | .photoKbReject i => 0 < i
  | .textOk i => 0 < i
  | .textKbReject i => 0 < i
  | .textBadRequest => True
  | .textError => True

/-- Well-formedness of one event's outcome. -/
def eventWf : AlertEvent → Prop
  | .discovery o => outcomeWf o
  | .refresh o => outcomeWf o

theorem alertStep_some (s : ℕ) (e : AlertEvent) :
    alertStep (some s) e = (some s, false) := by
  cases e with
  | discovery o => cases o <;> rfl
  | refresh o => cases o <;> rfl

theorem pinCount_some (l : List AlertEvent) (s : ℕ) : pinCount (some s) l = 0 := by
  induction l with
  | nil => rfl
  | cons e rest ih =>
      simp [pinCount, alertStep_some, ih]

theorem pinCount_none_le_one (l : List AlertEvent) (hwf : ∀ e ∈ l, eventWf e) :
    pinCount none l ≤ 1 := by
  induction l with
  | nil => simp [pinCount]
  | cons e rest ih =>
      have hrest : ∀ x ∈ rest, eventWf x := fun x hx => hwf x (List.mem_cons_of_mem _ hx)
      have hes := hwf e (List.mem_cons_self _ _)
      cases e with
      | discovery o =>
          cases o with
          | photoOk i =>
              have hi : i ≠ 0 := (Nat.pos_iff_ne_zero.mp hes)
              simp [pinCount, alertStep, send_new_token_pin_step, _send_or_photo, optNatTruthy,
                hi, pinCount_some]
          | photoKbReject i =>
              have hi : i ≠ 0 := (Nat.pos_iff_ne_zero.mp hes)
              simp [pinCount, alertStep, send_new_token_pin_step, _send_or_photo, optNatTruthy,
                hi, pinCount_some]
          | textOk i =>
              have hi : i ≠ 0 := (Nat.pos_iff_ne_zero.mp hes)
              simp [pinCount, alertStep, send_new_token_pin_step, _send_or_photo, optNatTruthy,
                hi, pinCount_some]
          | textKbReject i =>
              have hi : i ≠ 0 := (Nat.pos_iff_ne_zero.mp hes)
              simp [pinCount, alertStep, send_new_token_pin_step, _send_or_photo, optNatTruthy,
                hi, pinCount_some]
          | textBadRequest =>
              simpa [pinCount, alertStep, send_new_token_pin_step, _send_or_photo, optNatTruthy]
                using ih hrest
          | textError =>
              simpa [pinCount, alertStep, send_new_token_pin_step, _send_or_photo, optNatTruthy]
                using ih hrest
      | refresh o =>
          cases o <;>
            simpa [pinCount, alertStep, send_price_update_step, _send_or_photo]
              using ih hrest

/-- C5 — At-most-one-pin: for a fixed (destination, token) pair, any
sequence of discovery and refresh alert deliveries (whose Telegram
message ids, when a send succeeds, are positive) performs at most one
pin action; and once a `LAST_PINNED` entry is recorded, every later
discovery or refresh delivery attempts no pin and leaves the recorded
entry unchanged. -/
theorem at_most_one_pin (l : List AlertEvent) (hwf : ∀ e ∈ l, eventWf e) :
    pinCount none l ≤ 1 ∧
      ∀ (s : ℕ) (e : AlertEvent), alertStep (some s) e = (some s, false) :=
  ⟨pinCount_none_le_one l hwf, fun s e => alertStep_some s e⟩

/-- Witness for C5: two discovery deliveries followed by a refresh
delivery for the same key pin exactly once. -/
theorem at_most_one_pin_witness :
    pinCount none [AlertEvent.discovery (SendOutcome.photoOk 7),
        AlertEvent.discovery (SendOutcome.photoOk 9),
        AlertEvent.refresh (SendOutcome.photoOk 11)] ≤ 1 ∧
      ∀ (s : ℕ) (e : AlertEvent), alertStep (some s) e = (some s, false) :=
  at_most_one_pin _
    (by intro e he
        simp only [List.mem_cons, List.not_mem_nil, or_false] at he
        rcases he with h | h | h <;> subst h <;> simp [eventWf, outcomeWf])

/-- The per-destination dispatch loop of `do_trade_push` (src/main.py
lines 1383-1392) and `updater` (lines 1455-1458): every destination in
the subscriber snapshot is attempted; a delivery whose outcome removes
the destination (`_remove_bad_sub`, lines 456-459) shrinks the active
set but never stops the loop. -/
def dispatchLoop (outcomeOf : ℤ → SendOutcome) (active : Finset ℤ) :
    List ℤ → Finset ℤ × List ℤ
  | [] => (active, [])
  | cid :: rest =>
      let active' := if (_send_or_photo false (outcomeOf cid)).subRemoved then
          active.erase cid else active
      let p := dispatchLoop outcomeOf active' rest
      (p.1, cid :: p.2)

/-- C9 — refuted: a delivery failure for an invalid destination raises
`BadRequest` (the very class `_validate_subs`, src/main.py lines
442-454, treats as "invalid subscriber"), but `_send_or_photo`'s
text-send handler (lines 1152-1158) calls `_remove_bad_sub` only for
non-`BadRequest` exceptions.  Concretely, destination 5 failing with a
non-keyboard `BadRequest` is not removed: the active set is still `{5}`
after dispatch. -/
theorem bad_request_destination_not_removed :
    (_send_or_photo false SendOutcome.textBadRequest).msgId = none ∧
    (_send_or_photo false SendOutcome.textBadRequest).subRemoved = false ∧
    (dispatchLoop (fun _ => SendOutcome.textBadRequest) {5} [5]).1 = {5} :=
  ⟨rfl, rfl, rfl⟩

/-- C9 amended: only a non-`BadRequest` delivery exception removes the
destination from the active subscriber set (an invalid-destination
`BadRequest` leaves it subscribed and the alert unsent — such
destinations are only pruned by the periodic `_validate_subs`); in all
cases `_send_or_photo` swallows the failure, so the dispatch loop still
attempts every destination in the snapshot. -/
theorem send_failure_removal_characterized (pin : Bool) (out : SendOutcome)
    (outcomeOf : ℤ → SendOutcome) (active : Finset ℤ) (subsList : List ℤ) :
    ((_send_or_photo pin out).subRemoved = true ↔ out = SendOutcome.textError) ∧
    (dispatchLoop outcomeOf active subsList).2 = subsList := by
  constructor
  · cases out <;> simp [_send_or_photo]
  · induction subsList generalizing active with
    | nil => rfl
    | cons c rest ih => simp [dispatchLoop, ih]

/-! ## Tracking-set expiry (src/main.py lines 1400-1415) -/

/-- The duration-eviction decision of `updater` (src/main.py lines
1411-1415): a tracked token survives iff
`now_ts - first_ts < UPDATE_MAX_DURATION_MIN * 60`, where `first_ts` is
the token's `FIRST_SEEN` timestamp (defaulting to `now_ts` when the
record is absent). -/
def stillTracked (maxDurationMin : ℕ) (fs : FirstSeen) (nowTs : ℤ) (tok : String) : Bool :=
  let firstTs : ℤ := ((fs tok).map FSRec.ts).getD nowTs
  decide (nowTs - firstTs < (maxDurationMin : ℤ) * 60)

/-- The still-live tracked identifiers after the duration eviction of
one `updater` pass. -/
def expireAndGet (maxDurationMin : ℕ) (fs : FirstSeen) (nowTs : ℤ)
    (tracked : List String) : List String :=
  tracked.filter (stillTracked maxDurationMin fs nowTs)

/-- C6 — Tracking expiry: a token tracked at `t0` (its `FIRST_SEEN`
timestamp, which the discovery flow writes in the same cycle that adds
the token to `TRACKED`, so it equals the insertion time) is still live
one second before `t0 + maxDuration` and evicted one second after,
the eviction being decided by `now - t0 ≥ maxDuration` with
`maxDuration = UPDATE_MAX_DURATION_MIN * 60` seconds. -/
theorem tracking_expiry_boundary (D : ℕ) (fs : FirstSeen) (tracked : List String)
    (tok : String) (r0 : FSRec) (t0 : ℤ)
    (hmem : tok ∈ tracked) (hfs : fs tok = some r0) (hts : r0.ts = t0) :
    tok ∈ expireAndGet D fs (t0 + D * 60 - 1) tracked ∧
      tok ∉ expireAndGet D fs (t0 + D * 60 + 1) tracked := by
  constructor
  · refine List.mem_filter.mpr ⟨hmem, ?_⟩
    simp only [stillTracked, hfs, hts, Option.map_some', Option.getD_some,
      decide_eq_true_eq]
    omega
  · intro hin
    have h2 := (List.mem_filter.mp hin).2
    simp only [stillTracked, hfs, hts, Option.map_some', Option.getD_some,
      decide_eq_true_eq] at h2
    omega

/-- Witness for C6: with a 60-minute duration and a token whose record
was established at time 1000, the token survives at 1000+3599 and is
gone at 1000+3601. -/
theorem tracking_expiry_boundary_witness :
    "tokX" ∈ expireAndGet 60
        (fun t => if t = "tokX" then some (⟨80000, 1, 1000, none, none⟩ : FSRec) else none)
        (1000 + 60 * 60 - 1) ["tokX"] ∧
      "tokX" ∉ expireAndGet 60
        (fun t => if t = "tokX" then some (⟨80000, 1, 1000, none, none⟩ : FSRec) else none)
        (1000 + 60 * 60 + 1) ["tokX"] :=
  tracking_expiry_boundary 60 _ _ "tokX" ⟨80000, 1, 1000, none, none⟩ 1000
    (List.mem_singleton.mpr rfl) rfl rfl

/-! ## Social handle resolver — the Twitter scraper
(src/main.py lines 144-148, 262-414)

The HTTP boundary is an oracle `String → HttpResp`.  The regex-based
helpers `_get_cache_key`, `URLVariantGenerator.generate` and
`TwitterPatternMatcher.extract_usernames` are pure string functions whose
internals none of the claims depend on; they are carried as fields of
`ScrEnv`, alongside the configuration (`TWITTER_SCRAPER_ENABLED`,
`READER_SERVICES`, `TWITTER_MAX_USERNAMES`) and the current time. -/

/-- One entry of `READER_SERVICES` (src/main.py lines 144-148): the
source's `prefix` flag (called `prefixMode` here) says whether the
target URL is appended with its scheme stripped. -/
structure Service where
  name : String
  url : String
  prefixMode : Bool
deriving DecidableEq, Repr

/-- What one `SESSION.get` of `_try_service` produces: a response with
status and body, or one of the exception classes the source catches. -/
inductive HttpResp where
  | ok (status : ℕ) (text : String)
  | timeout
  | connError
  | exn
deriving DecidableEq, Repr

/-- `_try_service` (src/main.py lines 309-333): build the fetch URL,
issue the request, and return the body only on status 200 with more than
500 characters; every caught exception yields `None`. -/
def _try_service (http : String → HttpResp) (url : String) (service : Service) :
    Option String :=
  let fetchUrl :=
    if service.prefixMode then
      service.url ++ ((url.replace "https://" "").replace "http://" "")
    else service.url ++ url
  match http fetchUrl with
  | .ok status text => if status = 200 ∧ 500 < text.length then some text else none
  | _ => none

/-- The service-rotation loop of `_fetch_readable` (src/main.py lines
354-367): try each indexed service, skipping the preferred index; the
first success wins.  Also counts the `_try_service` calls made. -/
def rotateLoop (http : String → HttpResp) (url : String) (pref : Option ℕ) :
    List (ℕ × Service) → Option (Service × String) × ℕ
  | [] => (none, 0)
  | (i, svc) :: rest =>
      if pref = some i then rotateLoop http url pref rest
      else
        match _try_service http url svc with
        | some t => (some (svc, t), 1)
        | none =>
            let p := rotateLoop http url pref rest
            (p.1, p.2 + 1)

/-- `_fetch_readable` (src/main.py lines 335-370): preferred service
first (when its index is in range), then the last successful service,
then the rotation; a success through the preferred path or the rotation
updates the success-affinity state.  Returns (new affinity state,
content, number of `_try_service` calls). -/
def _fetch_readable (services : List Service) (http : String → HttpResp)
    (successful : Option Service) (url : String) (pref : Option ℕ) :
    Option Service × Option String × ℕ :=
  let prefTry : Option (Service × String) × ℕ :=
    match pref with
    | some i =>
        match services.get? i with
        | some svc =>
            match _try_service http url svc with
            | some t => (some (svc, t), 1)
            | none => (none, 1)
        | none => (none, 0)
    | none => (none, 0)
  match prefTry with
  | (some (svc, t), c) => (some svc, some t, c)
  | (none, c0) =>
      match successful with
      | some svc =>
          match _try_service http url svc with
          | some t => (successful, some t, c0 + 1)
          | none =>
              let p := rotateLoop http url pref services.enum
              match p.1 with
              | some (svc', t) => (some svc', some t, c0 + 1 + p.2)
              | none => (successful, none, c0 + 1 + p.2)
      | none =>
          let p := rotateLoop http url pref services.enum
          match p.1 with
          | some (svc', t) => (some svc', some t, c0 + p.2)
          | none => (successful, none, c0 + p.2)

/-- One entry of the scraper cache: the resolved handle set and the
timestamp it was written (src/main.py line 408). -/
structure CacheEntry where
  usernames : Finset String
  timestamp : ℚ
deriving DecidableEq

/-- The scraper's mutable state: the cache dict and the success-affinity
service. -/
structure ScrState where
  cache : String → Option CacheEntry
  successful : Option Service

/-- Configuration and pure helpers of the scraper (see the section
header). -/
structure ScrEnv where
  enabled : Bool
  services : List Service
  maxUsernames : ℕ
  getCacheKey : String → String
  generateVariants : String → List String
  extractUsernames : String → Finset String
  nowTime : ℚ

/-- `get_cached_usernames` (src/main.py lines 297-307): a cache entry
younger than 3600 seconds yields its handle set; anything else is a
miss. -/
def get_cached_usernames (env : ScrEnv) (cache : String → Option CacheEntry)
    (url : String) : Option (Finset String) :=
  match cache (env.getCacheKey url) with
  | some e => if env.nowTime - e.timestamp < 3600 then some e.usernames else none
  | none => none

/-- The variant loop of `scrape_url` (src/main.py lines 388-404):
accumulate extracted usernames over the variants, stopping early once
the cap is reached after a successful fetch. -/
def scrapeVariants (env : ScrEnv) (http : String → HttpResp) (pref : Option ℕ) :
    List String → Option Service → Finset String → ℕ →
      Option Service × Finset String × ℕ
  | [], svc, acc, cnt => (svc, acc, cnt)
  | v :: rest, svc, acc, cnt =>
      let fr := _fetch_readable env.services http svc v pref
      match fr.2.1 with
      | some t =>
          let acc' := acc ∪ env.extractUsernames t
          if env.maxUsernames ≤ acc'.card then (fr.1, acc', cnt + fr.2.2)
          else scrapeVariants env http pref rest fr.1 acc' (cnt + fr.2.2)
      | none => scrapeVariants env http pref rest fr.1 acc (cnt + fr.2.2)

/-- `scrape_url` (src/main.py lines 372-414): disabled scraper or empty
URL returns the empty set; with `use_cache` a fresh cache entry
short-circuits; otherwise the variant loop runs and a non-empty result
(and only a non-empty result) is written to the cache.  Returns (new
state, handle set, number of `_try_service` calls). -/
def scrape_url (env : ScrEnv) (http : String → HttpResp) (st : ScrState)
    (url : String) (useCache : Bool) (pref : Option ℕ) :
    ScrState × Finset String × ℕ :=
  if !env.enabled || url == "" then (st, ∅, 0)
  else
    match (if useCache then get_cached_usernames env st.cache url else none) with
    | some s => (st, s, 0)
    | none =>
        let r := scrapeVariants env http pref (env.generateVariants url) st.successful ∅ 0
        if r.2.1 = ∅ then ({ st with successful := r.1 }, r.2.1, r.2.2)
        else
          (⟨fun k => if k = env.getCacheKey url then some ⟨r.2.1, env.nowTime⟩ else st.cache k,
            r.1⟩, r.2.1, r.2.2)

/-! ### All-services-fail lemmas -/

theorem rotateLoop_fail (http : String → HttpResp) (url : String) (pref : Option ℕ)
    (hfail : ∀ u s, _try_service http u s = none) (l : List (ℕ × Service)) :
    (rotateLoop http url pref l).1 = none := by
  induction l with
  | nil => rfl
  | cons x rest ih =>
      obtain ⟨i, svc⟩ := x
      by_cases hp : pref = some i
      · simpa [rotateLoop, hp] using ih
      · simp [rotateLoop, hp, hfail]
        exact ih

theorem fetchReadable_fail (services : List Service) (http : String → HttpResp)
    (successful : Option Service) (url : String) (pref : Option ℕ)
    (hfail : ∀ u s, _try_service http u s = none) :
    (_fetch_readable services http successful url pref).1 = successful ∧
      (_fetch_readable services http successful url pref).2.1 = none := by
  have hrot := rotateLoop_fail http url pref hfail services.enum
  unfold _fetch_readable
  rcases pref with _ | i
  · cases successful with
    | none =>
        simp only [hfail]
        rcases h : (rotateLoop http url none services.enum) with ⟨r1, r2⟩
        rw [h] at hrot
        simp at hrot
        subst hrot
        simp
    | some svc =>
        simp only [hfail]
        rcases h : (rotateLoop http url none services.enum) with ⟨r1, r2⟩
        rw [h] at hrot
        simp at hrot
        subst hrot
        simp
  · cases hg : services.get? i with
    | none =>
        cases successful with
        | none =>
            simp only [hfail, hg]
            rcases h : (rotateLoop http url (some i) services.enum) with ⟨r1, r2⟩
            rw [h] at hrot
            simp at hrot
            subst hrot
            simp
        | some svc =>
            simp only [hfail, hg]
            rcases h : (rotateLoop http url (some i) services.enum) with ⟨r1, r2⟩
            rw [h] at hrot
            simp at hrot
            subst hrot
            simp
    | some svc0 =>
        cases successful with
        | none =>
            simp only [hfail, hg]
            rcases h : (rotateLoop http url (some i) services.enum) with ⟨r1, r2⟩
            rw [h] at hrot
            simp at hrot
            subst hrot
            simp
        | some svc =>
            simp only [hfail, hg]
            rcases h : (rotateLoop http url (some i) services.enum) with ⟨r1, r2⟩
            rw [h] at hrot
            simp at hrot
            subst hrot
            simp

theorem scrapeVariants_fail (env : ScrEnv) (http : String → HttpResp) (pref : Option ℕ)
    (hfail : ∀ u s, _try_service http u s = none) (variants : List String) :
    ∀ (svc : Option Service) (acc : Finset String) (cnt : ℕ),
    (scrapeVariants env http pref variants svc acc cnt).1 = svc ∧
      (scrapeVariants env http pref variants svc acc cnt).2.1 = acc := by
  induction variants with
  | nil => intro svc acc cnt; exact ⟨rfl, rfl⟩
  | cons v rest ih =>
      intro svc acc cnt
      obtain ⟨h1, h2⟩ := fetchReadable_fail env.services http svc v pref hfail
      simp only [scrapeVariants, h2, h1]
      exact ih svc acc _

/-! ### Claims C7 and C8 -/

/-- C8 — Cache hit short-circuits: with the scraper enabled and a
non-empty URL, a cache entry under the normalized key whose timestamp is
younger than the one-hour freshness window makes `scrape_url` (with
`use_cache=True`) return exactly the cached handle set, leave the state
untouched, and perform zero `_try_service` fetches. -/
theorem cache_hit_short_circuits (env : ScrEnv) (http : String → HttpResp)
    (st : ScrState) (url : String) (pref : Option ℕ) (e : CacheEntry)
    (hen : env.enabled = true) (hurl : ¬ url = "")
    (hc : st.cache (env.getCacheKey url) = some e)
    (hfresh : env.nowTime - e.timestamp < 3600) :
    scrape_url env http st url true pref = (st, e.usernames, 0) := by
  unfold scrape_url
  rw [hen]
  have hu : (url == "") = false := by
    simpa using hurl
  rw [hu]
  simp only [Bool.not_true, Bool.false_or, Bool.false_eq_true, if_false, if_true]
  unfold get_cached_usernames
  rw [hc]
  simp [hfresh]

private def c8Env : ScrEnv :=
  ⟨true, [⟨"Jina", "https://r.jina.ai/", true⟩], 200,
    fun u => u, fun u => [u], fun _ => ∅, 100⟩

private def c8St : ScrState :=
  ⟨fun k => if k = "https://x.com/somebody" then some ⟨{"alice"}, 30⟩ else none, none⟩

/-- Witness for C8 at a concrete environment, state and URL: the fresh
entry for the key is returned with no fetch. -/
theorem cache_hit_short_circuits_witness :
    scrape_url c8Env (fun _ => HttpResp.timeout) c8St "https://x.com/somebody" true none
      = (c8St, {"alice"}, 0) :=
  cache_hit_short_circuits c8Env (fun _ => HttpResp.timeout) c8St
    "https://x.com/somebody" none ⟨{"alice"}, 30⟩ rfl (by simp) rfl (by norm_num [c8Env])

private def c7Env : ScrEnv :=
  ⟨true, [⟨"Jina", "https://r.jina.ai/", true⟩], 200,
    fun u => u, fun u => [u], fun _ => ∅, 0⟩

private def c7St : ScrState := ⟨fun _ => none, none⟩

/-- C7 — refuted in its second half: when every proxy/variant
combination fails, `scrape_url` does return the empty set without an
error (first call below), but it never caches an empty result
(`if all_usernames:` at src/main.py line 406), so the state is unchanged
and a subsequent call for the same reference — at the very same time,
well inside the freshness window — runs the fetch chain again (one
`_try_service` call each time, not zero). -/
theorem empty_scrape_retries_within_window :
    scrape_url c7Env (fun _ => HttpResp.timeout) c7St "https://x.com/ex" true none
        = (c7St, ∅, 1) ∧
      (scrape_url c7Env (fun _ => HttpResp.timeout)
        (scrape_url c7Env (fun _ => HttpResp.timeout) c7St "https://x.com/ex" true none).1
        "https://x.com/ex" true none).2.2 = 1 :=
  ⟨rfl, rfl⟩

/-- C7 amended: if every proxy/variant combination fails (and the cache
has no fresh entry for the reference), `resolve` returns the empty set
rather than an error, and caches nothing — the state is unchanged, so a
subsequent call inside the freshness window behaves identically,
re-running the fetch chain instead of being suppressed; only a
non-empty result is cached and short-circuits later calls. -/
theorem scrape_all_fail_returns_empty_uncached (env : ScrEnv) (http : String → HttpResp)
    (st : ScrState) (url : String) (pref : Option ℕ)
    (hfail : ∀ u s, _try_service http u s = none)
    (hmiss : get_cached_usernames env st.cache url = none) :
    (scrape_url env http st url true pref).2.1 = ∅ ∧
      (scrape_url env http st url true pref).1 = st ∧
      scrape_url env http (scrape_url env http st url true pref).1 url true pref
        = scrape_url env http st url true pref := by
  have hmain : (scrape_url env http st url true pref).2.1 = ∅ ∧
      (scrape_url env http st url true pref).1 = st := by
    unfold scrape_url
    by_cases hg : (!env.enabled || url == "") = true
    · simp [hg]
    · simp only [hg, if_false, Bool.false_eq_true, hmiss, if_true]
      obtain ⟨h1, h2⟩ := scrapeVariants_fail env http pref hfail
        (env.generateVariants url) st.successful ∅ 0
      simp only [h1, h2, eq_self_iff_true, if_true]
      exact ⟨trivial, trivial⟩
  refine ⟨hmain.1, hmain.2, ?_⟩
  rw [hmain.2]

private def c7wEnv : ScrEnv :=
  ⟨true, [⟨"Jina", "https://r.jina.ai/", true⟩, ⟨"Txtify", "https://txtify.it/", true⟩],
    200, fun u => u, fun u => [u], fun _ => ∅, 50⟩

/-- Witness for the amended C7 at a concrete environment with two
services, all requests timing out, and an empty cache. -/
theorem scrape_all_fail_returns_empty_uncached_witness :
    (scrape_url c7wEnv (fun _ => HttpResp.timeout) ⟨fun _ => none, none⟩
        "https://x.com/i/communities/9" true none).2.1 = ∅ ∧
      (scrape_url c7wEnv (fun _ => HttpResp.timeout) ⟨fun _ => none, none⟩
        "https://x.com/i/communities/9" true none).1 = ⟨fun _ => none, none⟩ ∧
      scrape_url c7wEnv (fun _ => HttpResp.timeout)
        (scrape_url c7wEnv (fun _ => HttpResp.timeout) ⟨fun _ => none, none⟩
          "https://x.com/i/communities/9" true none).1
        "https://x.com/i/communities/9" true none
      = scrape_url c7wEnv (fun _ => HttpResp.timeout) ⟨fun _ => none, none⟩
          "https://x.com/i/communities/9" true none :=
  scrape_all_fail_returns_empty_uncached c7wEnv (fun _ => HttpResp.timeout)
    ⟨fun _ => none, none⟩ "https://x.com/i/communities/9" none
    (fun _ _ => rfl) rfl

/-! ## Best pool per token (src/main.py lines 1031-1039)

`best_per_token` keeps, per non-empty token address, the row of highest
liquidity (first wins ties, via the strict `liq > cur` comparison), then
returns the kept rows sorted by mcap descending.  Only the three fields
the function reads are modelled; the rest of each row is carried
unchanged by the source and plays no role. -/

structure PoolRow where
  token : String
  liquidity_usd : ℚ
  mcap_usd : ℚ
deriving DecidableEq, Repr

/-- The descending-mcap order used by the final
`sorted(..., key=mcap_usd, reverse=True)`. -/
def mcapGe (a b : PoolRow) : Prop := b.mcap_usd ≤ a.mcap_usd

instance : DecidableRel mcapGe :=
  fun a b => inferInstanceAs (Decidable (b.mcap_usd ≤ a.mcap_usd))

instance : IsTotal PoolRow mcapGe := ⟨fun a b => le_total b.mcap_usd a.mcap_usd⟩

instance : IsTrans PoolRow mcapGe := ⟨fun _ _ _ h1 h2 => le_trans h2 h1⟩

/-- One `best_map[tok] = ...` update: replace the entry at `tok` when the
new row's liquidity is strictly larger (`liq > float(cur...)`), append a
fresh entry when the token is new.  The association list keeps dict
insertion order. -/
def best_map_upd : List (String × PoolRow) → String → PoolRow → List (String × PoolRow)
  | [], tok, p => [(tok, p)]
  | (t, q) :: rest, tok, p =>
      if t = tok then
        (if q.liquidity_usd < p.liquidity_usd then (t, p) else (t, q)) :: rest
      else (t, q) :: best_map_upd rest tok p

/-- The `best_map` accumulation loop of `best_per_token` (src/main.py
lines 1032-1038), skipping rows with an empty token. -/
def best_map (pairs : List PoolRow) : List (String × PoolRow) :=
  pairs.foldl (fun acc p => if p.token = "" then acc else best_map_upd acc p.token p) []

/-- `best_per_token` (src/main.py lines 1031-1039). -/
def best_per_token (pairs : List PoolRow) : List PoolRow :=
  List.insertionSort mcapGe ((best_map pairs).map Prod.snd)

theorem best_map_upd_keys (tok : String) (p : PoolRow) :
    ∀ acc : List (String × PoolRow),
    (best_map_upd acc tok p).map Prod.fst =
      if tok ∈ acc.map Prod.fst then acc.map Prod.fst else acc.map Prod.fst ++ [tok] := by
  intro acc
  induction acc with
  | nil => simp [best_map_upd]
  | cons e rest ih =>
      obtain ⟨t, q⟩ := e
      by_cases ht : t = tok
      · subst ht
        simp [best_map_upd]
        split <;> simp
      · simp only [best_map_upd, if_neg ht, List.map_cons]
        rw [ih]
        by_cases hmem : tok ∈ rest.map Prod.fst
        · simp [hmem, ht]
        · have htt : ¬ tok = t := fun h => ht h.symm
          simp [hmem, htt]

theorem best_map_upd_mem (tok : String) (p : PoolRow) :
    ∀ acc : List (String × PoolRow), ∀ e ∈ best_map_upd acc tok p,
      e ∈ acc ∨ e = (tok, p) := by
  intro acc
  induction acc with
  | nil => intro e he; simp [best_map_upd] at he; subst he; exact Or.inr rfl
  | cons x rest ih =>
      obtain ⟨t, q⟩ := x
      intro e he
      by_cases ht : t = tok
      · subst ht
        simp only [best_map_upd, if_pos rfl] at he
        rcases List.mem_cons.mp he with h | h
        · by_cases hliq : q.liquidity_usd < p.liquidity_usd
          · rw [if_pos hliq] at h
            exact Or.inr h
          · rw [if_neg hliq] at h
            exact Or.inl (h ▸ List.mem_cons_self _ _)
        · exact Or.inl (List.mem_cons_of_mem _ h)
      · simp only [best_map_upd, if_neg ht] at he
        rcases List.mem_cons.mp he with h | h
        · exact Or.inl (h ▸ List.mem_cons_self _ _)
        · rcases ih e h with h' | h'
          · exact Or.inl (List.mem_cons_of_mem _ h')
          · exact Or.inr h'

theorem best_map_upd_at_key (tok : String) (p : PoolRow) :
    ∀ acc : List (String × PoolRow), (acc.map Prod.fst).Nodup →
    ∀ e ∈ best_map_upd acc tok p, e.1 = tok →
      (e.2 = p ∧ ∀ q', (tok, q') ∈ acc → q'.liquidity_usd < p.liquidity_usd) ∨
      ((tok, e.2) ∈ acc ∧ p.liquidity_usd ≤ e.2.liquidity_usd) := by
  intro acc
  induction acc with
  | nil =>
      intro _ e he _
      simp [best_map_upd] at he
      subst he
      exact Or.inl ⟨rfl, by intro q' hq'; simp at hq'⟩
  | cons x rest ih =>
      obtain ⟨t, q⟩ := x
      intro hn e he hkey
      have hnt : t ∉ rest.map Prod.fst := by
        have := List.nodup_cons.mp hn
        simpa using this.1
      have hnr : (rest.map Prod.fst).Nodup := (List.nodup_cons.mp hn).2
      by_cases ht : t = tok
      · subst ht
        simp only [best_map_upd, if_pos rfl] at he
        rcases List.mem_cons.mp he with h | h
        · by_cases hliq : q.liquidity_usd < p.liquidity_usd
          · rw [if_pos hliq] at h
            subst h
            refine Or.inl ⟨rfl, ?_⟩
            intro q' hq'
            rcases List.mem_cons.mp hq' with h' | h'
            · rw [(Prod.mk.injEq _ _ _ _).mp h'.symm |>.2] at hliq
              exact hliq
            · exact absurd (List.mem_map.mpr ⟨(t, q'), h', rfl⟩) hnt
          · rw [if_neg hliq] at h
            subst h
            exact Or.inr ⟨List.mem_cons_self _ _, le_of_not_lt hliq⟩
        · exact absurd (List.mem_map.mpr ⟨e, h, hkey⟩) hnt
      · simp only [best_map_upd, if_neg ht] at he
        rcases List.mem_cons.mp he with h | h
        · subst h
          exact absurd hkey ht
        · rcases ih hnr e h hkey with ⟨h1, h2⟩ | ⟨h1, h2⟩
          · refine Or.inl ⟨h1, ?_⟩
            intro q' hq'
            rcases List.mem_cons.mp hq' with h' | h'
            · exact absurd ((Prod.mk.injEq _ _ _ _).mp h').1.symm ht
            · exact h2 q' h'
          · exact Or.inr ⟨List.mem_cons_of_mem _ h1, h2⟩

theorem mem_keys_exists (a : String) (l : List (String × PoolRow))
    (h : a ∈ l.map Prod.fst) : ∃ b, (a, b) ∈ l := by
  obtain ⟨x, hx, hxa⟩ := List.mem_map.mp h
  exact ⟨x.2, by rwa [← hxa]⟩

/-- Invariant of the `best_map` accumulation over the rows processed so
far: keys are distinct; every entry is keyed by its row's (non-empty)
token, comes from the processed rows, and has maximal liquidity among
the processed rows of its token; and every processed row with a
non-empty token has an entry. -/
def goodMap (processed : List PoolRow) (acc : List (String × PoolRow)) : Prop :=
  (acc.map Prod.fst).Nodup ∧
  (∀ e ∈ acc, e.2.token = e.1 ∧ e.1 ≠ "" ∧ e.2 ∈ processed ∧
    ∀ r ∈ processed, r.token = e.1 → r.liquidity_usd ≤ e.2.liquidity_usd) ∧
  (∀ r ∈ processed, r.token ≠ "" → r.token ∈ acc.map Prod.fst)

theorem step_preserves_good (processed : List PoolRow) (acc : List (String × PoolRow))
    (p : PoolRow) (h : goodMap processed acc) :
    goodMap (processed ++ [p])
      (if p.token = "" then acc else best_map_upd acc p.token p) := by
  obtain ⟨hn, hent, hcomp⟩ := h
  by_cases hp : p.token = ""
  · rw [if_pos hp]
    refine ⟨hn, ?_, ?_⟩
    · intro e he
      obtain ⟨h1, h2, h3, h4⟩ := hent e he
      refine ⟨h1, h2, List.mem_append_left _ h3, ?_⟩
      intro r hr hrt
      rcases List.mem_append.mp hr with hr | hr
      · exact h4 r hr hrt
      · rw [List.mem_singleton.mp hr] at hrt
        exact absurd (hp ▸ hrt : "" = e.1) (Ne.symm h2)
    · intro r hr hrt
      rcases List.mem_append.mp hr with hr | hr
      · exact hcomp r hr hrt
      · rw [List.mem_singleton.mp hr] at hrt ⊢
        exact absurd (List.mem_singleton.mp hr ▸ hp) hrt
  · rw [if_neg hp]
    have hkeys := best_map_upd_keys p.token p acc
    have hsub : ∀ a, a ∈ acc.map Prod.fst → a ∈ (best_map_upd acc p.token p).map Prod.fst := by
      intro a ha
      rw [hkeys]
      split
      · exact ha
      · exact List.mem_append_left _ ha
    refine ⟨?_, ?_, ?_⟩
    · rw [hkeys]
      split
      · exact hn
      · rw [List.nodup_append]
        exact ⟨hn, List.nodup_singleton _, by
          intro a ha hb
          rw [List.mem_singleton.mp hb] at ha
          exact ‹p.token ∉ acc.map Prod.fst› ha⟩
    · intro e he
      by_cases hkey : e.1 = p.token
      · rcases best_map_upd_at_key p.token p acc hn e he hkey with ⟨h1, h2⟩ | ⟨h1, h2⟩
        · refine ⟨by rw [h1, hkey], by rw [hkey]; exact hp,
            by rw [h1]; exact List.mem_append_right _ (List.mem_singleton_self _), ?_⟩
          intro r hr hrt
          rw [h1]
          rcases List.mem_append.mp hr with hr | hr
          · have hrt' : r.token = p.token := by rw [hrt, hkey]
            have htok : r.token ∈ acc.map Prod.fst :=
              hcomp r hr (by rw [hrt']; exact hp)
            obtain ⟨q', hq'⟩ := mem_keys_exists _ _ (by rwa [hrt'] at htok)
            obtain ⟨-, -, -, hmax⟩ := hent (p.token, q') hq'
            exact le_of_lt (lt_of_le_of_lt (hmax r hr hrt') (h2 q' hq'))
          · rw [List.mem_singleton.mp hr]
        · obtain ⟨h3, h4, h5, h6⟩ := hent (p.token, e.2) h1
          refine ⟨by rw [hkey]; exact h3, by rw [hkey]; exact h4,
            List.mem_append_left _ h5, ?_⟩
          intro r hr hrt
          rcases List.mem_append.mp hr with hr | hr
          · exact h6 r hr (by rw [hrt, hkey])
          · rw [List.mem_singleton.mp hr]
            exact h2
      · have he' : e ∈ acc := by
          rcases best_map_upd_mem p.token p acc e he with h' | h'
          · exact h'
          · exact absurd (by rw [h']) hkey
        obtain ⟨h1, h2, h3, h4⟩ := hent e he'
        refine ⟨h1, h2, List.mem_append_left _ h3, ?_⟩
        intro r hr hrt
        rcases List.mem_append.mp hr with hr | hr
        · exact h4 r hr hrt
        · rw [List.mem_singleton.mp hr] at hrt
          exact absurd hrt.symm hkey
    · intro r hr hrt
      rcases List.mem_append.mp hr with hr | hr
      · exact hsub _ (hcomp r hr hrt)
      · rw [List.mem_singleton.mp hr, hkeys]
        split
        · assumption
        · exact List.mem_append_right _ (List.mem_singleton_self _)

theorem best_map_fold_good (pairs : List PoolRow) :
    ∀ (processed : List PoolRow) (acc : List (String × PoolRow)),
    goodMap processed acc →
    goodMap (processed ++ pairs)
      (pairs.foldl (fun acc p => if p.token = "" then acc else best_map_upd acc p.token p) acc) := by
  induction pairs with
  | nil =>
      intro processed acc h
      simpa using h
  | cons p rest ih =>
      intro processed acc h
      have h1 := step_preserves_good processed acc p h
      have h2 := ih (processed ++ [p]) _ h1
      simpa [List.append_assoc] using h2

theorem best_map_good (pairs : List PoolRow) : goodMap pairs (best_map pairs) := by
  have h := best_map_fold_good pairs [] [] ⟨List.nodup_nil, by simp, by simp⟩
  simpa [best_map] using h

/-- C10 — `best_per_token`: the result is sorted by `mcap_usd` in
non-increasing order, holds at most one row per token address (the token
lists of the result are pairwise distinct), and every returned row has a
non-empty token, comes from the input, and carries the maximal
`liquidity_usd` among the input rows of its token. -/
theorem best_per_token_spec (pairs : List PoolRow) :
    List.Sorted mcapGe (best_per_token pairs) ∧
    ((best_per_token pairs).map PoolRow.token).Nodup ∧
    ∀ q ∈ best_per_token pairs, q.token ≠ "" ∧ q ∈ pairs ∧
      ∀ r ∈ pairs, r.token = q.token → r.liquidity_usd ≤ q.liquidity_usd := by
  obtain ⟨hn, hent, -⟩ := best_map_good pairs
  have hperm : List.Perm (best_per_token pairs) ((best_map pairs).map Prod.snd) :=
    List.perm_insertionSort mcapGe _
  refine ⟨List.sorted_insertionSort mcapGe _, ?_, ?_⟩
  · have hmapeq : ((best_map pairs).map Prod.snd).map PoolRow.token
        = (best_map pairs).map Prod.fst := by
      rw [List.map_map]
      exact List.map_congr_left (fun e he => (hent e he).1)
    exact ((hperm.map PoolRow.token).nodup_iff).mpr (hmapeq ▸ hn)
  · intro q hq
    obtain ⟨e, he, hsnd⟩ := List.mem_map.mp (hperm.subset hq)
    obtain ⟨h1, h2, h3, h4⟩ := hent e he
    subst hsnd
    exact ⟨h1 ▸ h2, h3, fun r hr hrt => h4 r hr (hrt.trans h1)⟩

end MemeBot
